import Mathlib

/-!
Shallow embedding of the transactional batch record collection of
`my-rust-hyper` (files `src/src/webapi/collections.rs` and
`src/src/webapi/collections/car.rs`), together with theorems checking the
specification's claims about it.

The two source files implement the same CRUD logic twice (`CarCollection`
in `collections.rs` with `add`/`update`/`delete`, and `CarCollection` in
`collections/car.rs` with `add`/`modify`/`remove`, whose postgres path is
statement-for-statement the same).  One embedding below covers both; the
doc comments cite the exact lines.

Database effects (what one INSERT/UPDATE/DELETE statement does to the
`car` table, and which calls can fail) are modelled explicitly: the table
is a list of `(id, car_name)` rows plus the id-generating sequence, a
transaction is the usual begin/work/commit-or-rollback discipline on that
state, and a fault schedule says which database round trips fail.
-/

/-- Error codes returned by collection operations.  Modelled from the spec:
the repository's error module (`webapi/errors.rs`, enum `ErrorCode`) is not
present under `src/`; the three variants used by the collection code follow
the usages in `src/src/webapi/collections/car.rs` (`ReplyOk`,
`DatabaseError`, `NotFoundError`; `collections.rs` spells the latter two
`ReplyErrorDatabase` / `ReplyErrorNotFound`). -/
inductive ErrorCode where
  | ReplyOk
  | DatabaseError
  | NotFoundError
  deriving DecidableEq, Repr

/-- Car entity (`car::Car` / `models::Car` in the source): an optional
identifier (absent before creation) and a name. -/
structure Car where
  id : Option Int
  car_name : String
  deriving DecidableEq, Repr

/-- State of the `car` table together with the sequence that generates its
primary keys: `rows` holds the `(id, car_name)` rows in table order and
`nextId` is the next server-generated identifier (`RETURNING id`). -/
structure Db where
  rows : List (Int × String)
  nextId : Int
  deriving DecidableEq, Repr

/-- Primary-key column of the table. -/
def Db.keys (db : Db) : List Int :=
  db.rows.map Prod.fst

/-- Effect of `INSERT INTO car ( car_name ) VALUES ( $1 ) RETURNING id` on
the transaction state: appends a fresh row and returns the generated id. -/
def dbInsert (tx : Db) (name : String) : Db × Int :=
  (⟨tx.rows ++ [(tx.nextId, name)], tx.nextId + 1⟩, tx.nextId)

/-- Effect of `UPDATE car SET car_name = $1 WHERE id = $2` on the
transaction state: rewrites the rows whose id matches and returns the
number of rows affected. -/
def dbUpdate (tx : Db) (i : Int) (name : String) : Db × Nat :=
  (⟨tx.rows.map (fun r => if r.1 == i then (r.1, name) else r), tx.nextId⟩,
   (tx.rows.filter (fun r => r.1 == i)).length)

/-- Effect of `DELETE FROM car WHERE id IN (<ids>)` on the transaction
state: drops the rows whose id is listed and returns the number of rows
deleted. -/
def dbDelete (tx : Db) (ids : List Int) : Db × Nat :=
  (⟨tx.rows.filter (fun r => !(ids.contains r.1)), tx.nextId⟩,
   (tx.rows.filter (fun r => ids.contains r.1)).length)

/-- Fault schedule for one collection call: whether `pool.begin()` fails,
which numbered statement inside the transaction fails (the k-th statement
fails when `stmtFails.getD k false` is `true`), whether `tx.commit()`
fails, and whether `tx.rollback()` fails. -/
structure Faults where
  beginFails : Bool
  stmtFails : List Bool
  commitFails : Bool
  rollbackFails : Bool
  deriving DecidableEq, Repr

/-- Fault schedule on which every database round trip succeeds. -/
def noFaults : Faults :=
  ⟨false, [], false, false⟩

/-- How one collection call terminates, as observed by its caller: `ok` is
a returned outcome (`Ok(...)` in the source), `raw` is a raw error
propagated with the `?` operator, and `panic` is an `unwrap()` panic. -/
inductive ExecResult (α : Type) where
  | ok : α → ExecResult α
  | raw : ExecResult α
  | panic : ExecResult α
  deriving DecidableEq, Repr

namespace CarCollection

/-- Insert loop of `CarCollection::add`: `db0` is the pre-transaction
state restored by a rollback, `tx` the live transaction state, `acc` the
identifiers captured so far, `k` the index of the next statement.  On a
failed insert the source runs `tx.rollback().await.unwrap()` — a panic
when the rollback itself fails — and returns `(DatabaseError, None)`. -/
def addLoop (db0 tx : Db) (acc : List Int) (items : List Car) (f : Faults)
    (k : Nat) : ExecResult (ErrorCode × Option (List Int)) × Db :=
  match items with
  | [] =>
    if f.commitFails then (.ok (.DatabaseError, none), db0)
    else (.ok (.ReplyOk, some acc), tx)
  | item :: rest =>
    if f.stmtFails.getD k false then
      if f.rollbackFails then (.panic, db0)
      else (.ok (.DatabaseError, none), db0)
    else
      let p := dbInsert tx item.car_name
      addLoop db0 p.1 (acc ++ [p.2]) rest f (k + 1)

/-- Embedding of `CarCollection::add` (src/src/webapi/collections/car.rs
lines 56-116, postgres path; identically src/src/webapi/collections.rs
lines 227-261): begin a transaction — a begin failure propagates raw via
`?` — then insert every item in order, capturing the generated ids, and
commit; a commit failure reports `DatabaseError` with no ids. -/
def add (db : Db) (items : List Car) (f : Faults) :
    ExecResult (ErrorCode × Option (List Int)) × Db :=
  if f.beginFails then (.raw, db)
  else addLoop db db [] items f 0

/-- Update loop of `CarCollection::modify`: accumulates into `count` the
affected-row count of each `UPDATE ... WHERE id = item.id.unwrap_or(0)`,
then compares `count` with `total` (the input length).  A failing update
statement rolls back (`tx.rollback().await?` — raw on rollback failure)
and reports `DatabaseError`; a count mismatch rolls back the same way and
reports `NotFoundError`; on a match the transaction is committed, a commit
failure reporting `DatabaseError`. -/
def modifyLoop (db0 tx : Db) (count total : Nat) (items : List Car)
    (f : Faults) (k : Nat) : ExecResult ErrorCode × Db :=
  match items with
  | [] =>
    if total = count then
      if f.commitFails then (.ok .DatabaseError, db0)
      else (.ok .ReplyOk, tx)
    else
      if f.rollbackFails then (.raw, db0)
      else (.ok .NotFoundError, db0)
  | item :: rest =>
    if f.stmtFails.getD k false then
      if f.rollbackFails then (.raw, db0)
      else (.ok .DatabaseError, db0)
    else
      let p := dbUpdate tx (item.id.getD 0) item.car_name
      modifyLoop db0 p.1 (count + p.2) total rest f (k + 1)

/-- Embedding of `CarCollection::modify` (src/src/webapi/collections/
car.rs lines 118-172, postgres path; identically `CarCollection::update`
in src/src/webapi/collections.rs lines 263-306). -/
def modify (db : Db) (items : List Car) (f : Faults) :
    ExecResult ErrorCode × Db :=
  if f.beginFails then (.raw, db)
  else modifyLoop db db 0 items.length items f 0

/-- Embedding of `CarCollection::remove` (src/src/webapi/collections/
car.rs lines 174-206; identically `CarCollection::delete` in src/src/
webapi/collections.rs lines 307-344): one multi-row delete built by the
expression helper; a statement failure rolls back and reports
`DatabaseError`; then `ids.len()` is compared with the number of deleted
rows — equal commits and reports `ReplyOk` (commit failure:
`DatabaseError`), unequal rolls back and reports `NotFoundError`. -/
def remove (db : Db) (ids : List Int) (f : Faults) :
    ExecResult ErrorCode × Db :=
  if f.beginFails then (.raw, db)
  else if f.stmtFails.getD 0 false then
    if f.rollbackFails then (.raw, db)
    else (.ok .DatabaseError, db)
  else
    let p := dbDelete db ids
    if ids.length = p.2 then
      if f.commitFails then (.ok .DatabaseError, db)
      else (.ok .ReplyOk, p.1)
    else
      if f.rollbackFails then (.raw, db)
      else (.ok .NotFoundError, db)

/-- Embedding of `CarCollection::get` (src/src/webapi/collections/car.rs
lines 26-54; src/src/webapi/collections.rs lines 200-225): with `ids`
absent it selects the whole table; with `ids` present it runs the
`SELECT ... WHERE id IN (...)` statement built by `get_select_in_exp`.  A
failing statement is propagated raw by `?` — `get` has no error-code
branch of its own. -/
def get (db : Db) (ids : Option (List Int)) (stmtFails : Bool) :
    ExecResult (List Car) :=
  if stmtFails then .raw
  else
    match ids with
    | none => .ok (db.rows.map (fun r => ⟨some r.1, r.2⟩))
    | some l =>
      .ok ((db.rows.filter (fun r => l.contains r.1)).map
        (fun r => ⟨some r.1, r.2⟩))

end CarCollection

namespace ExpHelper

/-- Embedding of `ExpHelper::get_ids_as_exp` (src/src/webapi/
collections.rs lines 38-47): fold over the ids pushing a comma before
every item except when the accumulated string is still empty, then the
item's decimal rendering. -/
def get_ids_as_exp (ids : List Int) : String :=
  ids.foldl
    (fun result item =>
      (if result.length != 0 then result.push ',' else result) ++
        toString item)
    ""

/-- Embedding of `ExpHelper::get_select_in_exp` (src/src/webapi/
collections.rs lines 49-55). -/
def get_select_in_exp (table : String) (ids : List Int) : String :=
  "SELECT * FROM " ++ table ++ " WHERE id IN (" ++ get_ids_as_exp ids ++ ")"

/-- Embedding of `ExpHelper::get_delete_in_exp` (src/src/webapi/
collections.rs lines 56-62). -/
def get_delete_in_exp (table : String) (ids : List Int) : String :=
  "DELETE FROM " ++ table ++ " WHERE id IN (" ++ get_ids_as_exp ids ++ ")"

end ExpHelper

/-- Association-list rendering of `HashMap::insert`: replaces the value
bound to an existing key, otherwise appends the new binding. -/
def mapInsert (m : List (Int × String)) (k : Int) (v : String) :
    List (Int × String) :=
  if m.any (fun p => p.1 == k) then
    m.map (fun p => if p.1 == k then (k, v) else p)
  else m ++ [(k, v)]

/-- Error-name table built by `DataProvider::new` (src/src/webapi/
collections.rs lines 92-108): `queryResult` is the result of `SELECT
id,error_name FROM public.error`, `none` when that query failed —
`unwrap_or(Vec::new())` turns the failure into the empty vector — and the
returned rows are folded into the map with `insert`. -/
def dataProviderErrorTable (queryResult : Option (List (Int × String))) :
    List (Int × String) :=
  (queryResult.getD []).foldl (fun m p => mapInsert m p.1 p.2) []

/-- Modelled from the spec: the routing layer (`src/src/webapi/routes.rs`,
not present under `src/`) serializes a collection outcome into a reply
carrying a numeric code, and a raw failure of `get` surfaces as
`DatabaseError` ("Fails with `DatabaseError` if the table itself is
inaccessible"). -/
def getReplyCode (r : ExecResult (List Car)) : ErrorCode :=
  match r with
  | .ok _ => ErrorCode.ReplyOk
  | _ => ErrorCode.DatabaseError

/-- Comma-separated tail of a rendered id list: one `,` plus decimal
rendering per element. -/
def commaTail : List Int → String
  | [] => ""
  | j :: rest => "," ++ toString j ++ commaTail rest

/-- Comma-joined decimal renderings of a list of identifiers, in input
order. -/
def commaJoined : List Int → String
  | [] => ""
  | i :: rest => toString i ++ commaTail rest

/-- Fault-free rerun of the modify loop: the final transaction state and
the accumulated affected-row count. -/
def modifyRun (tx : Db) : List Car → Db × Nat
  | [] => (tx, 0)
  | item :: rest =>
    let p := dbUpdate tx (item.id.getD 0) item.car_name
    let q := modifyRun p.1 rest
    (q.1, p.2 + q.2)

/-- Identifiers generated for a batch of `n` inserts starting from
sequence value `start`: the consecutive values `start, start + 1, ...`. -/
def genIds (start : Int) : Nat → List Int
  | 0 => []
  | n + 1 => start :: genIds (start + 1) n

/-- Rows appended to the table by a batch of inserts starting from
sequence value `start`. -/
def addedRows (start : Int) : List Car → List (Int × String)
  | [] => []
  | item :: rest => (start, item.car_name) :: addedRows (start + 1) rest

/-- Number of rows the batch delete statement removes. -/
def delCount (db : Db) (ids : List Int) : Nat :=
  (db.rows.filter (fun r => ids.contains r.1)).length

/-- Sum over the batch of the per-item affected-row counts, measured
against a fixed key column. -/
def sumCounts (keys : List Int) : List Car → Nat
  | [] => 0
  | item :: rest => keys.count (item.id.getD 0) + sumCounts keys rest

example : ExpHelper.get_ids_as_exp [10, -3, 7] = "10,-3,7" := by decide
example : ExpHelper.get_ids_as_exp [] = "" := by decide
example :
    CarCollection.add ⟨[], 5⟩ [⟨none, "Volvo"⟩, ⟨none, "Saab"⟩] noFaults =
      (.ok (.ReplyOk, some [5, 6]), ⟨[(5, "Volvo"), (6, "Saab")], 7⟩) := by
  decide
example :
    CarCollection.modify ⟨[(1, "a"), (2, "b")], 3⟩
        [⟨some 1, "c"⟩, ⟨some 9, "d"⟩] noFaults =
      (.ok .NotFoundError, ⟨[(1, "a"), (2, "b")], 3⟩) := by decide
example :
    CarCollection.remove ⟨[(1, "a"), (2, "b")], 3⟩ [1, 2] noFaults =
      (.ok .ReplyOk, ⟨[], 3⟩) := by decide
example :
    CarCollection.remove ⟨[(1, "a"), (2, "b")], 3⟩ [1, 1] noFaults =
      (.ok .NotFoundError, ⟨[(1, "a"), (2, "b")], 3⟩) := by decide

theorem noFaults_begin : noFaults.beginFails = false := rfl

theorem noFaults_stmt (k : Nat) : noFaults.stmtFails.getD k false = false := rfl

theorem noFaults_commit : noFaults.commitFails = false := rfl

theorem noFaults_rollback : noFaults.rollbackFails = false := rfl

theorem modifyLoop_noFault (db0 : Db) :
    ∀ (items : List Car) (tx : Db) (count total k : Nat),
      CarCollection.modifyLoop db0 tx count total items noFaults k =
        if total = count + (modifyRun tx items).2 then
          (.ok .ReplyOk, (modifyRun tx items).1)
        else (.ok .NotFoundError, db0) := by
  intro items
  induction items with
  | nil =>
    intro tx count total k
    simp [CarCollection.modifyLoop, modifyRun, noFaults_commit,
      noFaults_rollback]
  | cons item rest ih =>
    intro tx count total k
    simp only [CarCollection.modifyLoop, modifyRun, noFaults_stmt,
      Bool.false_eq_true, if_false, ih, Nat.add_assoc]

theorem modify_noFault (db : Db) (items : List Car) :
    CarCollection.modify db items noFaults =
      if items.length = (modifyRun db items).2 then
        (.ok .ReplyOk, (modifyRun db items).1)
      else (.ok .NotFoundError, db) := by
  rw [CarCollection.modify]
  simp only [noFaults_begin, Bool.false_eq_true, if_false,
    modifyLoop_noFault, Nat.zero_add]

theorem dbUpdate_keys (tx : Db) (i : Int) (name : String) :
    ((dbUpdate tx i name).1).keys = tx.keys := by
  have h : (Prod.fst ∘ fun r : Int × String =>
      if r.1 == i then (r.1, name) else r) = Prod.fst := by
    funext r
    by_cases hr : r.1 = i <;> simp [hr]
  show (tx.rows.map fun r =>
      if r.1 == i then (r.1, name) else r).map Prod.fst = tx.rows.map Prod.fst
  rw [List.map_map, h]

theorem dbUpdate_count (tx : Db) (i : Int) (name : String) :
    (dbUpdate tx i name).2 = tx.keys.count i := by
  rw [Db.keys, List.count_eq_countP, List.countP_map,
    List.countP_eq_length_filter]
  rfl

theorem modifyRun_count (items : List Car) : ∀ tx : Db,
    (modifyRun tx items).2 = sumCounts tx.keys items := by
  induction items with
  | nil => intro tx; rfl
  | cons item rest ih =>
    intro tx
    rw [modifyRun, sumCounts]
    simp only [ih, dbUpdate_keys, dbUpdate_count]

theorem sumCounts_le_length (keys : List Int) (items : List Car)
    (h : ∀ item ∈ items, keys.count (item.id.getD 0) ≤ 1) :
    sumCounts keys items ≤ items.length := by
  induction items with
  | nil => simp [sumCounts]
  | cons item rest ih =>
    have h1 := h item (List.mem_cons_self item rest)
    have h2 := ih (fun it hit => h it (List.mem_cons_of_mem item hit))
    rw [sumCounts, List.length_cons]
    omega

theorem sumCounts_lt_of_zero_term (keys : List Int) (items : List Car)
    (hle : ∀ item ∈ items, keys.count (item.id.getD 0) ≤ 1)
    (hz : ∃ item ∈ items, keys.count (item.id.getD 0) = 0) :
    sumCounts keys items < items.length := by
  induction items with
  | nil => obtain ⟨it, hit, _⟩ := hz; exact absurd hit (List.not_mem_nil it)
  | cons item rest ih =>
    have h1 := hle item (List.mem_cons_self item rest)
    have hrest := fun it hit => hle it (List.mem_cons_of_mem item hit)
    rw [sumCounts, List.length_cons]
    obtain ⟨it, hit, hz0⟩ := hz
    rcases List.mem_cons.mp hit with heq | hmem
    · subst heq
      have := sumCounts_le_length keys rest hrest
      omega
    · have := ih hrest ⟨it, hmem, hz0⟩
      omega

theorem sumCounts_all_one (keys : List Int) (items : List Car)
    (hle : ∀ item ∈ items, keys.count (item.id.getD 0) ≤ 1)
    (heq : sumCounts keys items = items.length) :
    ∀ item ∈ items, keys.count (item.id.getD 0) = 1 := by
  induction items with
  | nil => intro it hit; exact absurd hit (List.not_mem_nil it)
  | cons item rest ih =>
    have h1 := hle item (List.mem_cons_self item rest)
    have hrest := fun it hit => hle it (List.mem_cons_of_mem item hit)
    have hsle := sumCounts_le_length keys rest hrest
    rw [sumCounts, List.length_cons] at heq
    intro it hit
    rcases List.mem_cons.mp hit with h | hmem
    · subst h; omega
    · exact ih hrest (by omega) it hmem

theorem genIds_zero (start : Int) : genIds start 0 = [] := rfl

theorem genIds_succ (start : Int) (n : Nat) :
    genIds start (n + 1) = start :: genIds (start + 1) n := rfl

theorem addedRows_zip (items : List Car) : ∀ start : Int,
    addedRows start items =
      (genIds start items.length).zip (items.map Car.car_name) := by
  induction items with
  | nil => intro start; rfl
  | cons item rest ih =>
    intro start
    rw [addedRows, List.length_cons, genIds_succ, List.map_cons,
      List.zip_cons_cons, ih]

theorem addLoop_noFault (db0 : Db) :
    ∀ (items : List Car) (tx : Db) (acc : List Int) (k : Nat),
      CarCollection.addLoop db0 tx acc items noFaults k =
        (.ok (.ReplyOk, some (acc ++ genIds tx.nextId items.length)),
         ⟨tx.rows ++ addedRows tx.nextId items,
          tx.nextId + (items.length : Int)⟩) := by
  intro items
  induction items with
  | nil =>
    intro tx acc k
    simp [CarCollection.addLoop, noFaults_commit, genIds_zero, addedRows]
  | cons item rest ih =>
    intro tx acc k
    simp only [CarCollection.addLoop, noFaults_stmt, Bool.false_eq_true,
      if_false, dbInsert, ih, List.length_cons, genIds_succ, addedRows,
      List.append_assoc, List.singleton_append, List.cons_append,
      List.nil_append, Nat.cast_add, Nat.cast_one]
    simp [add_assoc, add_comm, add_left_comm]

theorem add_noFault (db : Db) (items : List Car) :
    CarCollection.add db items noFaults =
      (.ok (.ReplyOk, some (genIds db.nextId items.length)),
       ⟨db.rows ++ addedRows db.nextId items,
        db.nextId + (items.length : Int)⟩) := by
  rw [CarCollection.add]
  simp only [noFaults_begin, Bool.false_eq_true, if_false, addLoop_noFault,
    List.nil_append]

theorem addLoop_insert_fault (db0 : Db) :
    ∀ (items : List Car) (tx : Db) (acc : List Int) (f : Faults) (k : Nat),
      f.rollbackFails = false →
      (∃ j, j < items.length ∧ f.stmtFails.getD (k + j) false = true) →
      CarCollection.addLoop db0 tx acc items f k =
        (.ok (.DatabaseError, none), db0) := by
  intro items
  induction items with
  | nil =>
    intro tx acc f k _ hex
    obtain ⟨j, hj, _⟩ := hex
    exact absurd hj (Nat.not_lt_zero j)
  | cons item rest ih =>
    intro tx acc f k hrb hex
    by_cases hk : f.stmtFails.getD k false = true
    · simp only [CarCollection.addLoop, hk, if_true, hrb,
        Bool.false_eq_true, if_false]
    · simp only [CarCollection.addLoop, hk, Bool.false_eq_true, if_false]
      apply ih _ _ f (k + 1) hrb
      obtain ⟨j, hj, hjf⟩ := hex
      cases j with
      | zero => exact absurd hjf hk
      | succ j' =>
        refine ⟨j', by simpa using hj, ?_⟩
        have harg : k + 1 + j' = k + (j' + 1) := by omega
        rw [harg]
        exact hjf

theorem addLoop_total (db0 : Db) :
    ∀ (items : List Car) (tx : Db) (acc : List Int) (f : Faults) (k : Nat),
      f.rollbackFails = false →
      ∃ o d, CarCollection.addLoop db0 tx acc items f k = (.ok o, d) := by
  intro items
  induction items with
  | nil =>
    intro tx acc f k _
    cases hc : f.commitFails
    · exact ⟨(.ReplyOk, some acc), tx, by
        simp only [CarCollection.addLoop, hc, Bool.false_eq_true, if_false]⟩
    · exact ⟨(.DatabaseError, none), db0, by
        simp only [CarCollection.addLoop, hc, if_true]⟩
  | cons item rest ih =>
    intro tx acc f k hrb
    cases hk : f.stmtFails.getD k false
    · simp only [CarCollection.addLoop, hk, Bool.false_eq_true, if_false]
      exact ih _ _ f (k + 1) hrb
    · exact ⟨(.DatabaseError, none), db0, by
        simp only [CarCollection.addLoop, hk, if_true, hrb,
          Bool.false_eq_true, if_false]⟩

theorem modifyLoop_total (db0 : Db) :
    ∀ (items : List Car) (tx : Db) (count total : Nat) (f : Faults)
      (k : Nat), f.rollbackFails = false →
      ∃ o d, CarCollection.modifyLoop db0 tx count total items f k =
        (.ok o, d) := by
  intro items
  induction items with
  | nil =>
    intro tx count total f k hrb
    by_cases ht : total = count
    · cases hc : f.commitFails
      · exact ⟨.ReplyOk, tx, by
          simp only [CarCollection.modifyLoop, if_pos ht, hc,
            Bool.false_eq_true, if_false]⟩
      · exact ⟨.DatabaseError, db0, by
          simp only [CarCollection.modifyLoop, if_pos ht, hc, if_true]⟩
    · exact ⟨.NotFoundError, db0, by
        simp only [CarCollection.modifyLoop, if_neg ht, hrb,
          Bool.false_eq_true, if_false]⟩
  | cons item rest ih =>
    intro tx count total f k hrb
    cases hk : f.stmtFails.getD k false
    · simp only [CarCollection.modifyLoop, hk, Bool.false_eq_true, if_false]
      exact ih _ _ total f (k + 1) hrb
    · exact ⟨.DatabaseError, db0, by
        simp only [CarCollection.modifyLoop, hk, if_true, hrb,
          Bool.false_eq_true, if_false]⟩

theorem remove_total (db : Db) (ids : List Int) (f : Faults)
    (hb : f.beginFails = false) (hrb : f.rollbackFails = false) :
    ∃ o d, CarCollection.remove db ids f = (.ok o, d) := by
  rw [CarCollection.remove]
  simp only [hb, Bool.false_eq_true, if_false]
  cases hk : f.stmtFails.getD 0 false
  · simp only [Bool.false_eq_true, if_false]
    by_cases hl : ids.length = (dbDelete db ids).2
    · cases hc : f.commitFails
      · exact ⟨.ReplyOk, (dbDelete db ids).1, by
          simp only [if_pos hl, hc, Bool.false_eq_true, if_false]⟩
      · exact ⟨.DatabaseError, db, by
          simp only [if_pos hl, hc, if_true]⟩
    · exact ⟨.NotFoundError, db, by
        simp only [if_neg hl, hrb, Bool.false_eq_true, if_false]⟩
  · exact ⟨.DatabaseError, db, by
      simp only [if_true, hrb, Bool.false_eq_true, if_false]⟩

theorem remove_eq (db : Db) (ids : List Int) (sf : Bool) :
    CarCollection.remove db ids ⟨false, [sf], false, false⟩ =
      if sf then (.ok .DatabaseError, db)
      else if ids.length = delCount db ids then
        (.ok .ReplyOk,
         ⟨db.rows.filter (fun r => !(ids.contains r.1)), db.nextId⟩)
      else (.ok .NotFoundError, db) := by
  cases sf <;> simp [CarCollection.remove, dbDelete, delCount, List.getD]

theorem contains_dedup (ids : List Int) (x : Int) :
    ids.dedup.contains x = ids.contains x := by
  apply Bool.coe_iff_coe.mp
  rw [List.elem_iff, List.elem_iff]
  exact List.mem_dedup

theorem filter_contains_le :
    ∀ (rows : List (Int × String)) (s : List Int),
      (rows.map Prod.fst).Nodup →
      (rows.filter (fun r => s.contains r.1)).length ≤ s.length := by
  intro rows
  induction rows with
  | nil => intro s _; simp
  | cons r rest ih =>
    intro s hnd
    rw [List.map_cons, List.nodup_cons] at hnd
    obtain ⟨hout, hrest⟩ := hnd
    simp only [List.filter_cons]
    by_cases hr : s.contains r.1 = true
    · rw [if_pos hr]
      have hmem : r.1 ∈ s := List.elem_iff.mp hr
      have hcong : rest.filter (fun x => s.contains x.1) =
          rest.filter (fun x => (s.erase r.1).contains x.1) := by
        apply List.filter_congr
        intro x hx
        have hne : x.1 ≠ r.1 := by
          intro he
          exact hout (he ▸ List.mem_map_of_mem Prod.fst hx)
        apply Bool.coe_iff_coe.mp
        rw [List.elem_iff, List.elem_iff]
        exact (List.mem_erase_of_ne hne).symm
      rw [List.length_cons, hcong]
      have h1 := ih (s.erase r.1) hrest
      have h2 := List.length_erase_of_mem hmem
      have h3 : 0 < s.length :=
        List.length_pos.mpr (List.ne_nil_of_mem hmem)
      omega
    · rw [if_neg hr]
      exact ih s hrest

theorem delCount_lt_of_dup (db : Db) (ids : List Int)
    (hkeys : db.keys.Nodup) (hdup : ¬ids.Nodup) :
    delCount db ids < ids.length := by
  have hcong : db.rows.filter (fun r => ids.contains r.1) =
      db.rows.filter (fun r => ids.dedup.contains r.1) := by
    apply List.filter_congr
    intro x _
    exact (contains_dedup ids x.1).symm
  have h1 : delCount db ids ≤ ids.dedup.length := by
    rw [delCount, hcong]
    exact filter_contains_le db.rows ids.dedup hkeys
  have h2 := (List.dedup_sublist ids).length_le
  have h3 : ids.dedup.length ≠ ids.length := by
    intro he
    exact hdup (List.dedup_eq_self.mp
      ((List.dedup_sublist ids).eq_of_length he))
  omega

theorem strAppend_assoc (a b c : String) : a ++ b ++ c = a ++ (b ++ c) := by
  apply String.ext
  simp [String.data_append]

theorem strPush_comma (a : String) : a.push ',' = a ++ "," := by
  apply String.ext
  simp [String.data_append, String.data_push]

theorem str_ne_empty_of_length (a : String) (h : a.data ≠ []) : a ≠ "" := by
  intro he
  exact h (congrArg String.data he)

theorem toDigitsCore_len_ge (b : Nat) :
    ∀ (fuel n : Nat) (ds : List Char),
      ds.length ≤ (Nat.toDigitsCore b fuel n ds).length := by
  intro fuel
  induction fuel with
  | zero => intro n ds; simp [Nat.toDigitsCore]
  | succ f ih =>
    intro n ds
    simp only [Nat.toDigitsCore]
    by_cases h : n / b = 0
    · simp [h]
    · simp only [h, if_false]
      calc ds.length ≤ (Nat.digitChar (n % b) :: ds).length := by simp
        _ ≤ _ := ih _ _

theorem toDigits_length_pos (b n : Nat) : 0 < (Nat.toDigits b n).length := by
  rw [Nat.toDigits]
  simp only [Nat.toDigitsCore]
  by_cases h : n / b = 0
  · simp [h]
  · simp only [h, if_false]
    have h1 := toDigitsCore_len_ge b n (n / b) [Nat.digitChar (n % b)]
    simp only [List.length_singleton] at h1
    omega

theorem natRepr_ne_empty (n : Nat) : Nat.repr n ≠ "" := by
  apply str_ne_empty_of_length
  show (Nat.toDigits 10 n).asString.data ≠ []
  have h := toDigits_length_pos 10 n
  intro he
  rw [show (Nat.toDigits 10 n).asString.data = Nat.toDigits 10 n from rfl]
    at he
  rw [he] at h
  exact absurd h (by simp)

theorem intToString_ne_empty (i : Int) : toString i ≠ "" := by
  show Int.repr i ≠ ""
  cases i with
  | ofNat m => exact natRepr_ne_empty m
  | negSucc m =>
    apply str_ne_empty_of_length
    rw [show Int.repr (Int.negSucc m) = "-" ++ Nat.repr (m + 1) from rfl,
      String.data_append]
    simp

theorem foldl_exp_step (acc : String) (i : Int) (h : acc ≠ "") :
    (if acc.length != 0 then acc.push ',' else acc) ++ toString i =
      acc ++ ("," ++ toString i) := by
  have hlen : (acc.length != 0) = true := by
    rw [bne_iff_ne]
    intro hz
    apply h
    apply String.ext
    have : acc.data.length = 0 := hz
    simpa using List.length_eq_zero.mp this
  rw [hlen, if_pos rfl, strPush_comma, strAppend_assoc]

theorem foldl_exp_tail :
    ∀ (rest : List Int) (acc : String), acc ≠ "" →
      rest.foldl
        (fun result item =>
          (if result.length != 0 then result.push ',' else result) ++
            toString item)
        acc = acc ++ commaTail rest := by
  intro rest
  induction rest with
  | nil =>
    intro acc _
    rw [List.foldl_nil, commaTail, String.append_empty]
  | cons j rest ih =>
    intro acc hacc
    rw [List.foldl_cons, foldl_exp_step acc j hacc, commaTail]
    have hne : acc ++ ("," ++ toString j) ≠ "" := by
      apply str_ne_empty_of_length
      rw [String.data_append, String.data_append]
      simp [show ("," : String).data = [','] from rfl]
    rw [ih _ hne, strAppend_assoc, strAppend_assoc]

theorem get_ids_as_exp_eq (ids : List Int) :
    ExpHelper.get_ids_as_exp ids = commaJoined ids := by
  cases ids with
  | nil => rfl
  | cons i rest =>
    rw [ExpHelper.get_ids_as_exp, List.foldl_cons]
    have hfirst :
        (if ("" : String).length != 0 then ("" : String).push ','
          else ("" : String)) ++ toString i = toString i := by
      rfl
    rw [hfirst, foldl_exp_tail rest (toString i) (intToString_ne_empty i),
      commaJoined]

theorem foldl_insert_disjoint :
    ∀ (items acc : List (Int × String)),
      (items.map Prod.fst).Nodup →
      (∀ p ∈ items, p.1 ∉ acc.map Prod.fst) →
      items.foldl (fun m p => mapInsert m p.1 p.2) acc = acc ++ items := by
  intro items
  induction items with
  | nil => intro acc _ _; simp
  | cons p rest ih =>
    intro acc hnd hdisj
    rw [List.map_cons, List.nodup_cons] at hnd
    obtain ⟨hpout, hrest⟩ := hnd
    rw [List.foldl_cons]
    have hany : (acc.any fun q => q.1 == p.1) = false := by
      rw [List.any_eq_false]
      intro q hq hbe
      have hq1 : q.1 = p.1 := by simpa using hbe
      exact hdisj p (List.mem_cons_self p rest)
        (hq1 ▸ List.mem_map_of_mem Prod.fst hq)
    have hstep : mapInsert acc p.1 p.2 = acc ++ [(p.1, p.2)] := by
      rw [mapInsert, hany]
      simp
    rw [hstep, ih (acc ++ [(p.1, p.2)]) hrest]
    · rw [List.append_assoc, List.singleton_append, Prod.mk.eta]
    · intro q hq
      rw [List.map_append, List.mem_append]
      intro hmem
      rcases hmem with hacc | hone
      · exact hdisj q (List.mem_cons_of_mem p hq) hacc
      · have hq1 : q.1 = p.1 := by simpa using hone
        exact hpout (hq1 ▸ List.mem_map_of_mem Prod.fst hq)

theorem errorTable_of_nodup (items : List (Int × String))
    (h : (items.map Prod.fst).Nodup) :
    dataProviderErrorTable (some items) = items := by
  rw [dataProviderErrorTable]
  have := foldl_insert_disjoint items [] h (by intro p _ hmem; simp at hmem)
  simpa using this

/-- C1: for every modify/update batch run with no database faults, after
all per-item UPDATE statements have been issued inside one transaction the
accumulated affected-row count is compared with the number of input items:
if they are equal the transaction is committed (the updates persist) and
the operation reports Success (`ReplyOk`); if they are not equal the
transaction is rolled back (the original table is restored) and the
operation reports `NotFoundError`. -/
theorem modify_compares_count_and_branches (db : Db) (items : List Car) :
    CarCollection.modify db items noFaults =
      if items.length = (modifyRun db items).2 then
        (.ok .ReplyOk, (modifyRun db items).1)
      else (.ok .NotFoundError, db) :=
  modify_noFault db items

/-- C2: for every add batch in which some insert statement fails, the
whole transaction is rolled back (the table is exactly the pre-call
state), the operation reports `DatabaseError`, and the identifiers
captured for earlier items are discarded (`None` is returned in place of
the id list). -/
theorem add_rolls_back_on_insert_failure (db : Db) (items : List Car)
    (sf : List Bool) (cf : Bool)
    (hfail : ∃ j, j < items.length ∧ sf.getD j false = true) :
    CarCollection.add db items ⟨false, sf, cf, false⟩ =
      (.ok (.DatabaseError, none), db) := by
  rw [CarCollection.add]
  simp only [Bool.false_eq_true, if_false]
  apply addLoop_insert_fault db items db [] ⟨false, sf, cf, false⟩ 0 rfl
  obtain ⟨j, h1, h2⟩ := hfail
  exact ⟨j, h1, by simpa using h2⟩

theorem add_rolls_back_on_insert_failure_witness :
    CarCollection.add ⟨[(1, "a")], 2⟩ [⟨none, "b"⟩, ⟨none, "c"⟩]
        ⟨false, [false, true], false, false⟩ =
      (.ok (.DatabaseError, none), ⟨[(1, "a")], 2⟩) :=
  add_rolls_back_on_insert_failure ⟨[(1, "a")], 2⟩
    [⟨none, "b"⟩, ⟨none, "c"⟩] [false, true] false ⟨1, by decide, by decide⟩

/-- C3: every remove/delete call executes one multi-row delete and
compares the number of deleted rows with the length of the input id list:
equal commits and reports Success (`ReplyOk`), unequal rolls back and
reports `NotFoundError`, and a failing delete statement rolls back and
reports `DatabaseError`; moreover, when the table's keys are distinct, an
id list containing duplicates always yields `NotFoundError` (in
particular even when every distinct id exists). -/
theorem remove_branches_and_duplicate_ids (db : Db) (ids : List Int)
    (sf : Bool) :
    (CarCollection.remove db ids ⟨false, [sf], false, false⟩ =
      if sf then (.ok .DatabaseError, db)
      else if ids.length = delCount db ids then
        (.ok .ReplyOk,
         ⟨db.rows.filter (fun r => !(ids.contains r.1)), db.nextId⟩)
      else (.ok .NotFoundError, db)) ∧
    (db.keys.Nodup → ¬ids.Nodup →
      CarCollection.remove db ids noFaults = (.ok .NotFoundError, db)) := by
  constructor
  · exact remove_eq db ids sf
  · intro hkeys hdup
    have hlt := delCount_lt_of_dup db ids hkeys hdup
    rw [CarCollection.remove]
    simp only [noFaults_begin, noFaults_stmt, noFaults_rollback,
      Bool.false_eq_true, if_false]
    rw [if_neg ?hne]
    case hne =>
      rw [show (dbDelete db ids).2 = delCount db ids from rfl]
      omega

theorem remove_branches_and_duplicate_ids_witness :
    CarCollection.remove ⟨[(1, "a")], 2⟩ [1, 1] noFaults =
      (.ok .NotFoundError, ⟨[(1, "a")], 2⟩) :=
  (remove_branches_and_duplicate_ids ⟨[(1, "a")], 2⟩ [1, 1] false).2
    (by decide) (by decide)

/-- C4: for every modify batch over a table with distinct primary keys,
when the accumulated affected-row count equals the number of input items,
every identifier carried by an item of the batch existed in the table
(and, the keys being distinct, its update affected exactly one row). -/
theorem modify_success_implies_each_id_updated_once (db : Db)
    (items : List Car) (hkeys : db.keys.Nodup)
    (hcount : (modifyRun db items).2 = items.length) :
    ∀ item ∈ items, ∀ i : Int, item.id = some i →
      i ∈ db.keys ∧ db.keys.count i = 1 := by
  have hle : ∀ it ∈ items, db.keys.count (it.id.getD 0) ≤ 1 :=
    fun it _ => List.nodup_iff_count_le_one.mp hkeys _
  have hsum : sumCounts db.keys items = items.length := by
    rw [← modifyRun_count items db]
    exact hcount
  have hall := sumCounts_all_one db.keys items hle hsum
  intro it hit i hi
  have hone := hall it hit
  rw [hi] at hone
  simp only [Option.getD_some] at hone
  refine ⟨?_, hone⟩
  by_contra hmem
  rw [List.count_eq_zero.mpr hmem] at hone
  exact absurd hone (by decide)

theorem modify_success_implies_each_id_updated_once_witness :
    1 ∈ (⟨[(1, "a"), (2, "b")], 3⟩ : Db).keys ∧
      (⟨[(1, "a"), (2, "b")], 3⟩ : Db).keys.count 1 = 1 :=
  modify_success_implies_each_id_updated_once ⟨[(1, "a"), (2, "b")], 3⟩
    [⟨some 1, "x"⟩, ⟨some 2, "y"⟩] (by decide) (by decide)
    ⟨some 1, "x"⟩ (by decide) 1 rfl

/-- C5 counterexample: not every database-level failure is converted into
an outcome value at the collection boundary — a failure of `pool.begin()`
propagates to the caller of `CarCollection::add` as a raw error (the `?`
operator), not as a reply or error code. -/
theorem collection_raw_error_counterexample :
    CarCollection.add ⟨[], 1⟩ [] ⟨true, [], false, false⟩ =
      (.raw, ⟨[], 1⟩) := rfl

/-- C5 amended: statement-level and commit failures are caught at the
collection boundary and converted into an outcome value: whenever
`pool.begin()` and `tx.rollback()` succeed, add, modify and remove return
`Ok` with an outcome for every fault schedule; however a `pool.begin()`
failure propagates to the caller as a raw error (`?`), as does a rollback
failure in modify/remove, and a rollback failure in add panics
(`unwrap()`). -/
theorem collection_converts_statement_failures (db : Db) (items : List Car)
    (ids : List Int) (f : Faults) (hb : f.beginFails = false)
    (hrb : f.rollbackFails = false) :
    (∃ o d, CarCollection.add db items f = (.ok o, d)) ∧
    (∃ o d, CarCollection.modify db items f = (.ok o, d)) ∧
    (∃ o d, CarCollection.remove db ids f = (.ok o, d)) := by
  refine ⟨?_, ?_, remove_total db ids f hb hrb⟩
  · rw [CarCollection.add]
    simp only [hb, Bool.false_eq_true, if_false]
    exact addLoop_total db items db [] f 0 hrb
  · rw [CarCollection.modify]
    simp only [hb, Bool.false_eq_true, if_false]
    exact modifyLoop_total db items db 0 items.length f 0 hrb

theorem collection_converts_statement_failures_witness :
    (∃ o d, CarCollection.add ⟨[], 1⟩ [⟨none, "a"⟩]
      ⟨false, [true], true, false⟩ = (.ok o, d)) ∧
    (∃ o d, CarCollection.modify ⟨[], 1⟩ [⟨none, "a"⟩]
      ⟨false, [true], true, false⟩ = (.ok o, d)) ∧
    (∃ o d, CarCollection.remove ⟨[], 1⟩ [5]
      ⟨false, [true], true, false⟩ = (.ok o, d)) :=
  collection_converts_statement_failures ⟨[], 1⟩ [⟨none, "a"⟩] [5]
    ⟨false, [true], true, false⟩ rfl rfl

/-- C6: for every add batch run with no database faults, the transaction
is committed and the operation reports Success (`ReplyOk`) with the
server-generated identifiers in input order: the returned list is the
consecutive sequence starting at the current id-sequence value, and the
rows appended to the table pair the i-th returned identifier with the
i-th input item's name. -/
theorem add_success_returns_ordered_ids (db : Db) (items : List Car) :
    CarCollection.add db items noFaults =
      (.ok (.ReplyOk, some (genIds db.nextId items.length)),
       ⟨db.rows ++ (genIds db.nextId items.length).zip
          (items.map Car.car_name),
        db.nextId + (items.length : Int)⟩) := by
  rw [add_noFault, addedRows_zip]

/-- C7: the error-name table of the Connection Provider is built by
querying all rows of the error-definitions table during construction: if
the query fails the table is simply empty (the constructor still
succeeds), and when the query returns rows with distinct codes the table
holds exactly those `(code, name)` pairs. -/
theorem error_table_query_failure_fallback :
    dataProviderErrorTable none = [] ∧
    ∀ items : List (Int × String), (items.map Prod.fst).Nodup →
      dataProviderErrorTable (some items) = items :=
  ⟨rfl, errorTable_of_nodup⟩

theorem error_table_query_failure_fallback_witness :
    dataProviderErrorTable none = [] ∧
      dataProviderErrorTable (some [(7, "DatabaseError")]) =
        [(7, "DatabaseError")] :=
  ⟨error_table_query_failure_fallback.1,
   error_table_query_failure_fallback.2 [(7, "DatabaseError")] (by decide)⟩

/-- C8: the batch expression builder renders a list of integer
identifiers as the comma-joined list of their decimal representations, in
input order (it is a pure function of the input, hence deterministic),
and embeds exactly that rendering into the `IN (...)` fragment of the
generated SELECT and DELETE statements. -/
theorem batch_exp_builder_renders_comma_joined (table : String)
    (ids : List Int) :
    ExpHelper.get_ids_as_exp ids = commaJoined ids ∧
    ExpHelper.get_select_in_exp table ids =
      "SELECT * FROM " ++ table ++ " WHERE id IN (" ++
        commaJoined ids ++ ")" ∧
    ExpHelper.get_delete_in_exp table ids =
      "DELETE FROM " ++ table ++ " WHERE id IN (" ++
        commaJoined ids ++ ")" := by
  refine ⟨get_ids_as_exp_eq ids, ?_, ?_⟩
  · rw [ExpHelper.get_select_in_exp, get_ids_as_exp_eq]
  · rw [ExpHelper.get_delete_in_exp, get_ids_as_exp_eq]

/-- C9: a modify batch containing an item whose identifier is absent is
not rejected: the source substitutes identifier 0 (`unwrap_or(0)`), so
over a table with distinct keys none of which is 0 that update affects
zero rows, the accumulated count diverges from the item count, and the
batch is rolled back with `NotFoundError` (the table is unchanged). -/
theorem modify_absent_id_defaults_to_zero_not_found (db : Db)
    (items : List Car) (hkeys : db.keys.Nodup)
    (hzero : (0 : Int) ∉ db.keys)
    (habsent : ∃ item ∈ items, item.id = none) :
    CarCollection.modify db items noFaults = (.ok .NotFoundError, db) := by
  rw [modify_noFault]
  have hle : ∀ it ∈ items, db.keys.count (it.id.getD 0) ≤ 1 :=
    fun it _ => List.nodup_iff_count_le_one.mp hkeys _
  have hz : ∃ it ∈ items, db.keys.count (it.id.getD 0) = 0 := by
    obtain ⟨it, hit, hnone⟩ := habsent
    refine ⟨it, hit, ?_⟩
    rw [hnone]
    exact List.count_eq_zero.mpr hzero
  have hlt := sumCounts_lt_of_zero_term db.keys items hle hz
  rw [modifyRun_count]
  rw [if_neg (by omega)]

theorem modify_absent_id_defaults_to_zero_not_found_witness :
    CarCollection.modify ⟨[(1, "a")], 2⟩ [⟨none, "x"⟩] noFaults =
      (.ok .NotFoundError, ⟨[(1, "a")], 2⟩) :=
  modify_absent_id_defaults_to_zero_not_found ⟨[(1, "a")], 2⟩
    [⟨none, "x"⟩] (by decide) (by decide) ⟨⟨none, "x"⟩, by decide, rfl⟩

/-- C10: for the empty identifier list `get_ids_as_exp` returns the empty
string, so the generated SELECT and DELETE statements end in `IN ()`;
consequently (the database rejecting that malformed statement, modelled
as a statement failure) a remove/delete of an empty id list takes the
`DatabaseError` branch with the table unchanged — not a trivial Success —
and a get with an empty id list fails raw, surfacing as `DatabaseError`
through the reply mapping, instead of returning an empty result. -/
theorem empty_id_list_renders_empty_in_clause (db : Db) (cf : Bool) :
    ExpHelper.get_ids_as_exp [] = "" ∧
    ExpHelper.get_select_in_exp "public.car" [] =
      "SELECT * FROM public.car WHERE id IN ()" ∧
    ExpHelper.get_delete_in_exp "public.car" [] =
      "DELETE FROM public.car WHERE id IN ()" ∧
    CarCollection.remove db [] ⟨false, [true], cf, false⟩ =
      (.ok .DatabaseError, db) ∧
    CarCollection.get db (some []) true = .raw ∧
    getReplyCode (CarCollection.get db (some []) true) =
      ErrorCode.DatabaseError := by
  refine ⟨rfl, by decide, by decide, rfl, rfl, rfl⟩
